import Mathlib

/-!
Verification development for the arango-adapter repository: a Casbin policy
adapter persisting rules into an ArangoDB collection.  The definitions below
are a shallow embedding of the Go source (arangoadapter.go, options.go): pure
functions become Lean functions, the database collection becomes an explicit
`List CasbinRule`, the AQL queries built by the adapter become executable
predicates/transformers on that list, and the streaming-transaction layer
becomes an explicit optional overlay on the committed collection.
-/

namespace ArangoAdapter

/-- Embeds the `CasbinRule` struct: one policy rule document, with the
storage key, the policy type and up to six string values `v0..v5`. -/
structure CasbinRule where
  key : String
  ptype : String
  v0 : String
  v1 : String
  v2 : String
  v3 : String
  v4 : String
  v5 : String
deriving Repr, DecidableEq

/-- The six value fields of a rule document, in order `v0..v5`. -/
def ruleFields (line : CasbinRule) : List String :=
  [line.v0, line.v1, line.v2, line.v3, line.v4, line.v5]

/-- Embeds `Adapter.savePolicyLine`: builds a `CasbinRule` from a policy
type and a list of values, copying `rule[i]` into field `vi` whenever
`len(rule) > i` and leaving the field empty otherwise (the Go code guards
each copy with a length test, which `List.getD` captures exactly). -/
def savePolicyLine (ptype : String) (rule : List String) : CasbinRule :=
  { key := ""
    ptype := ptype
    v0 := rule.getD 0 ""
    v1 := rule.getD 1 ""
    v2 := rule.getD 2 ""
    v3 := rule.getD 3 ""
    v4 := rule.getD 4 ""
    v5 := rule.getD 5 "" }

/-- Embeds the trimming loop of `loadPolicyLine`:
`index := len(p)-1; for p[index] == "" { index-- }`.  The result is the
final value of `index`; `none` models the out-of-bounds access `p[-1]`
that the Go loop performs when every entry of `p` is empty. -/
def trimLoop (p : List String) : Nat → Option Nat
  | 0 => if p.getD 0 "" = "" then none else some 0
  | i + 1 => if p.getD (i + 1) "" = "" then trimLoop p i else some (i + 1)

/-- Outcome of decoding one stored rule document (`loadPolicyLine`):
either the document is silently skipped (empty ptype, `return nil` with the
model untouched), or the policy array `p` is handed to
`persist.LoadPolicyArray`, or the trim loop under-runs the slice. -/
inductive DecodeResult where
  | skipped
  | loaded (p : List String)
  | panicked
deriving Repr, DecidableEq

/-- Embeds `loadPolicyLine`: returns `nil` (skip) when the ptype is empty,
otherwise builds `p = [ptype, v0, v1, v2, v3, v4, v5]`, trims trailing
empty entries with the index-descending loop, and loads the trimmed array. -/
def loadPolicyLine (line : CasbinRule) : DecodeResult :=
  if line.ptype = "" then .skipped
  else
    let p := line.ptype :: ruleFields line
    match trimLoop p (p.length - 1) with
    | none => .panicked
    | some index => .loaded (p.take (index + 1))

/-- Removes the maximal run of empty strings at the end of a list; this is
the canonical trailing-empty trimming the spec describes. -/
def dropTrailingEmpty (l : List String) : List String :=
  (l.reverse.dropWhile (fun s => decide (s = ""))).reverse

/-- One step of the cursor loop of `LoadPolicyCtx`: decode a document and
append the resulting policy array to the in-memory model; skipped
documents leave the model unchanged. -/
def loadStep (m : List (List String)) (r : CasbinRule) : List (List String) :=
  match loadPolicyLine r with
  | .loaded p => m ++ [p]
  | _ => m

/-- Embeds the cursor loop of `LoadPolicyCtx`: decode every document of the
collection in order, accumulating the loaded policy arrays. -/
def loadAll (coll : List CasbinRule) : List (List String) :=
  coll.foldl loadStep []

theorem dropWhile_replicate_append (p : String → Bool) (x : String)
    (hx : p x = true) (k : Nat) (t : List String) :
    (List.replicate k x ++ t).dropWhile p = t.dropWhile p := by
  induction k with
  | zero => simp
  | succ n ih => simp [List.replicate_succ, List.dropWhile, hx, ih]

theorem dropTrailingEmpty_append_replicate (l : List String) (k : Nat) :
    dropTrailingEmpty (l ++ List.replicate k "") = dropTrailingEmpty l := by
  simp [dropTrailingEmpty, List.reverse_append, List.reverse_replicate,
    dropWhile_replicate_append (fun s => decide (s = "")) "" (by simp) k
      l.reverse]

/-- Core decode lemma: on a non-empty ptype, `loadPolicyLine` terminates
with the tuple `ptype :: (v fields with trailing empties removed)`. -/
theorem loadPolicyLine_eq (line : CasbinRule) (h : line.ptype ≠ "") :
    loadPolicyLine line =
      .loaded (line.ptype :: dropTrailingEmpty (ruleFields line)) := by
  by_cases h5 : line.v5 = "" <;> by_cases h4 : line.v4 = "" <;>
    by_cases h3 : line.v3 = "" <;> by_cases h2 : line.v2 = "" <;>
    by_cases h1 : line.v1 = "" <;> by_cases h0 : line.v0 = "" <;>
    simp_all [loadPolicyLine, ruleFields, trimLoop, dropTrailingEmpty,
      List.dropWhile, List.take]

theorem dropTrailingEmpty_length_le (l : List String) :
    (dropTrailingEmpty l).length ≤ l.length := by
  have h := (List.dropWhile_sublist (l := l.reverse)
    (fun s => decide (s = ""))).length_le
  simpa [dropTrailingEmpty] using h

theorem dropTrailingEmpty_append_last_ne (l : List String) (x : String)
    (hx : x ≠ "") : dropTrailingEmpty (l ++ [x]) = l ++ [x] := by
  simp [dropTrailingEmpty, List.dropWhile, hx]

theorem dropTrailingEmpty_append_last_empty (l : List String) :
    dropTrailingEmpty (l ++ [""]) = dropTrailingEmpty l := by
  simp [dropTrailingEmpty, List.dropWhile]

theorem dropTrailingEmpty_getD (l : List String) (i : Nat)
    (hi : i < (dropTrailingEmpty l).length) :
    (dropTrailingEmpty l).getD i "" = l.getD i "" := by
  induction l using List.reverseRecOn with
  | nil => simp [dropTrailingEmpty] at hi
  | append_singleton l x ih =>
    by_cases hx : x = ""
    · subst hx
      rw [dropTrailingEmpty_append_last_empty] at hi ⊢
      have hl : i < l.length :=
        lt_of_lt_of_le hi (dropTrailingEmpty_length_le l)
      rw [ih hi, List.getD_append _ _ _ _ hl]
    · rw [dropTrailingEmpty_append_last_ne l x hx]

theorem dropTrailingEmpty_length_gt (l : List String) (j : Nat)
    (hj : j < l.length) (hne : l.getD j "" ≠ "") :
    j < (dropTrailingEmpty l).length := by
  induction l using List.reverseRecOn with
  | nil => simp at hj
  | append_singleton l x ih =>
    by_cases hx : x = ""
    · subst hx
      rw [dropTrailingEmpty_append_last_empty]
      have hjl : j < l.length := by
        have hlen : (l ++ [""]).length = l.length + 1 := by simp
        rcases Nat.lt_or_ge j l.length with h | h
        · exact h
        · exfalso
          have hj' : j = l.length := by omega
          subst hj'
          have : (l ++ [""]).getD l.length "" = "" := by
            rw [List.getD_append_right _ _ _ _ (le_refl _)]
            simp
          exact hne this
      exact ih hjl (by rw [← List.getD_append l [""] "" j hjl]; exact hne)
    · rw [dropTrailingEmpty_append_last_ne l x hx]
      simpa using hj

/-- Fields of an encoded rule: the original values padded with empty
strings up to the six value slots, provided at most six values are given. -/
theorem ruleFields_savePolicyLine (ptype : String) (rule : List String)
    (h : rule.length ≤ 6) :
    ruleFields (savePolicyLine ptype rule) =
      rule ++ List.replicate (6 - rule.length) "" := by
  rcases rule with _ | ⟨a, _ | ⟨b, _ | ⟨c, _ | ⟨d, _ | ⟨e, _ | ⟨f, _ | ⟨g, t⟩⟩⟩⟩⟩⟩⟩
  · rfl
  · rfl
  · rfl
  · rfl
  · rfl
  · rfl
  · rfl
  · simp at h

/-- Claim C3: for every stored rule with a non-empty ptype, decoding
terminates without any out-of-bounds index access and produces the tuple
starting with the ptype followed by the value fields trimmed of trailing
empty strings; when all six value fields are empty the result is the
one-element tuple holding just the ptype. -/
theorem loadPolicyLine_nonempty_ptype_spec (line : CasbinRule)
    (h : line.ptype ≠ "") :
    loadPolicyLine line =
        .loaded (line.ptype :: dropTrailingEmpty (ruleFields line)) ∧
      loadPolicyLine line ≠ .panicked ∧
      (ruleFields line = ["", "", "", "", "", ""] →
        loadPolicyLine line = .loaded [line.ptype]) := by
  have he := loadPolicyLine_eq line h
  refine ⟨he, by simp [he], fun hf => ?_⟩
  rw [he, hf]
  rfl

def c3Line : CasbinRule :=
  { key := "", ptype := "p", v0 := "", v1 := "", v2 := "", v3 := "",
    v4 := "", v5 := "" }

theorem loadPolicyLine_nonempty_ptype_spec_witness :
    c3Line.ptype ≠ "" ∧
      (loadPolicyLine c3Line =
          .loaded (c3Line.ptype :: dropTrailingEmpty (ruleFields c3Line)) ∧
        loadPolicyLine c3Line ≠ .panicked ∧
        (ruleFields c3Line = ["", "", "", "", "", ""] →
          loadPolicyLine c3Line = .loaded [c3Line.ptype])) :=
  ⟨by decide, loadPolicyLine_nonempty_ptype_spec c3Line (by decide)⟩

/-- Claim C8: a stored rule whose ptype is the empty string is decoded to
a silent skip: no error and no change to the in-memory model. -/
theorem loadPolicyLine_empty_ptype_spec (line : CasbinRule)
    (m : List (List String)) (h : line.ptype = "") :
    loadPolicyLine line = .skipped ∧ loadStep m line = m := by
  have hs : loadPolicyLine line = .skipped := by simp [loadPolicyLine, h]
  exact ⟨hs, by simp [loadStep, hs]⟩

def c8Line : CasbinRule :=
  { key := "k1", ptype := "", v0 := "alice", v1 := "data1", v2 := "read",
    v3 := "", v4 := "", v5 := "" }

theorem loadPolicyLine_empty_ptype_spec_witness :
    c8Line.ptype = "" ∧
      (loadPolicyLine c8Line = .skipped ∧
        loadStep [["p", "bob", "data2", "write"]] c8Line =
          [["p", "bob", "data2", "write"]]) :=
  ⟨rfl, loadPolicyLine_empty_ptype_spec c8Line
    [["p", "bob", "data2", "write"]] rfl⟩

/-- Claim C4 counterexample: with an empty ptype the round trip does not
reproduce the tuple at all — the decoder silently skips the document, so
the claim as stated (quantified over every ptype) fails at `ptype = ""`. -/
theorem roundTrip_empty_ptype_cex :
    loadPolicyLine (savePolicyLine "" ["a"]) ≠
      DecodeResult.loaded ("" :: dropTrailingEmpty ["a"]) := by
  decide

/-- Claim C4 (amended): for every NON-EMPTY ptype and list of at most six
values, decoding the encoded rule yields the ptype followed by the values
with trailing empty strings removed; an empty value in a middle position
followed by a later non-empty value survives in place. -/
theorem roundTrip_spec (ptype : String) (rule : List String)
    (hlen : rule.length ≤ 6) (hpt : ptype ≠ "") :
    loadPolicyLine (savePolicyLine ptype rule) =
        .loaded (ptype :: dropTrailingEmpty rule) ∧
      (∀ i j, i < j → j < rule.length → rule.getD j "" ≠ "" →
        i < (dropTrailingEmpty rule).length ∧
          (dropTrailingEmpty rule).getD i "" = rule.getD i "") := by
  constructor
  · have h1 := loadPolicyLine_eq (savePolicyLine ptype rule) hpt
    rw [h1, ruleFields_savePolicyLine ptype rule hlen,
      dropTrailingEmpty_append_replicate]
    rfl
  · intro i j hij hj hne
    have hjlt := dropTrailingEmpty_length_gt rule j hj hne
    have hilt : i < (dropTrailingEmpty rule).length := lt_trans hij hjlt
    exact ⟨hilt, dropTrailingEmpty_getD rule i hilt⟩

theorem roundTrip_spec_witness :
    (["alice", "", "read"] : List String).length ≤ 6 ∧ ("p" : String) ≠ "" ∧
      (loadPolicyLine (savePolicyLine "p" ["alice", "", "read"]) =
          .loaded ("p" :: dropTrailingEmpty ["alice", "", "read"]) ∧
        (∀ i j, i < j → j < (["alice", "", "read"] : List String).length →
          (["alice", "", "read"] : List String).getD j "" ≠ "" →
          i < (dropTrailingEmpty ["alice", "", "read"]).length ∧
            (dropTrailingEmpty ["alice", "", "read"]).getD i "" =
              (["alice", "", "read"] : List String).getD i "")) :=
  ⟨by decide, by decide, roundTrip_spec "p" ["alice", "", "read"]
    (by decide) (by decide)⟩

/-- Embeds a Go slice access `l[i]` with an `int`-typed index: `some`
element when the index is within bounds, `none` when the access would
panic at runtime. -/
def goIndex (l : List String) (i : Int) : Option String :=
  if 0 ≤ i ∧ i < l.length then l.get? i.toNat else none

theorem goIndex_eq_getD (l : List String) (i : Int) (h0 : 0 ≤ i)
    (hl : i < l.length) : goIndex l i = some (l.getD i.toNat "") := by
  have hn : i.toNat < l.length := by omega
  rw [goIndex, if_pos ⟨h0, hl⟩, List.get?_eq_get hn,
    List.getD_eq_get _ _ hn]

/-- Embeds the six clause-building blocks of `RemoveFilteredPolicyCtx`:
for each field position `j` in `0..5`, the clause `doc.vj == @vj` is added
exactly when `fieldIndex <= j && j < fieldIndex+len(fieldValues)` holds,
binding `@vj` to the slice access `fieldValues[j-fieldIndex]`. -/
def removeFilteredBindings (fieldIndex : Int) (fieldValues : List String) :
    List (Nat × Option String) :=
  (List.range 6).filterMap fun (j : Nat) =>
    if fieldIndex ≤ (j : Int) ∧ (j : Int) < fieldIndex + fieldValues.length
    then some (j, goIndex fieldValues ((j : Int) - fieldIndex))
    else none

/-- Claim C5: the query built by `RemoveFilteredPolicy` binds field `v_j`
for exactly the positions `j` in `0..5` with
`fieldIndex ≤ j < fieldIndex + len(fieldValues)`, the bound value is
`fieldValues[j - fieldIndex]`, and every such slice access is within
bounds (the binding is always `some _`, never the panic marker `none`). -/
theorem removeFilteredBindings_spec (fieldIndex : Int)
    (fieldValues : List String) (j : Nat) (v : Option String) :
    (j, v) ∈ removeFilteredBindings fieldIndex fieldValues ↔
      (j < 6 ∧ fieldIndex ≤ (j : Int) ∧
        (j : Int) < fieldIndex + fieldValues.length ∧
        v = some (fieldValues.getD ((j : Int) - fieldIndex).toNat "")) := by
  simp only [removeFilteredBindings, List.mem_filterMap, List.mem_range]
  constructor
  · rintro ⟨a, ha, hif⟩
    by_cases hg : fieldIndex ≤ (a : Int) ∧
        (a : Int) < fieldIndex + fieldValues.length
    · rw [if_pos hg] at hif
      simp only [Option.some.injEq, Prod.mk.injEq] at hif
      obtain ⟨rfl, rfl⟩ := hif
      refine ⟨ha, hg.1, hg.2, ?_⟩
      rw [goIndex_eq_getD _ _ (by omega) (by omega)]
    · rw [if_neg hg] at hif
      simp at hif
  · rintro ⟨hj6, hle, hlt, rfl⟩
    refine ⟨j, hj6, ?_⟩
    rw [if_pos ⟨hle, hlt⟩, goIndex_eq_getD _ _ (by omega) (by omega)]

/-- Embeds the exact-match filter built by `RemovePolicyCtx` and
`UpdatePolicy`: ptype equality conjoined with one equality clause per
non-empty value field of the target line. -/
def matchesOldLine (line doc : CasbinRule) : Bool :=
  doc.ptype == line.ptype &&
  (line.v0 == "" || doc.v0 == line.v0) &&
  (line.v1 == "" || doc.v1 == line.v1) &&
  (line.v2 == "" || doc.v2 == line.v2) &&
  (line.v3 == "" || doc.v3 == line.v3) &&
  (line.v4 == "" || doc.v4 == line.v4) &&
  (line.v5 == "" || doc.v5 == line.v5)

/-- Embeds the `UPDATE doc WITH ...` clause of `UpdatePolicy`: every
payload field of the document is overwritten with the new line's values;
the storage key of the document is kept. -/
def applyUpdate (newLine doc : CasbinRule) : CasbinRule :=
  { doc with
    ptype := newLine.ptype
    v0 := newLine.v0
    v1 := newLine.v1
    v2 := newLine.v2
    v3 := newLine.v3
    v4 := newLine.v4
    v5 := newLine.v5 }

/-- Embeds `Adapter.UpdatePolicy` acting on a collection: documents that
satisfy the exact-match filter for the old rule are overwritten with the
new rule's fields, all other documents pass through unchanged. -/
def updatePolicy (ptype : String) (oldRule newRule : List String)
    (coll : List CasbinRule) : List CasbinRule :=
  let oldLine := savePolicyLine ptype oldRule
  let newLine := savePolicyLine ptype newRule
  coll.map fun doc =>
    if matchesOldLine oldLine doc then applyUpdate newLine doc else doc

/-- The spec's description of the documents `UpdatePolicy` touches: ptype
equal to the given one, and each value field of the document equal to the
corresponding field of the old rule wherever that field is non-empty
(empty fields of the old rule impose no constraint). -/
def SpecUpdateTarget (ptype : String) (oldRule : List String)
    (doc : CasbinRule) : Prop :=
  doc.ptype = ptype ∧
    ∀ k, k < 6 →
      (ruleFields (savePolicyLine ptype oldRule)).getD k "" ≠ "" →
      (ruleFields doc).getD k "" =
        (ruleFields (savePolicyLine ptype oldRule)).getD k ""

instance (ptype : String) (oldRule : List String) (doc : CasbinRule) :
    Decidable (SpecUpdateTarget ptype oldRule doc) := by
  unfold SpecUpdateTarget
  exact inferInstance

theorem matchesOldLine_iff (ptype : String) (oldRule : List String)
    (doc : CasbinRule) :
    matchesOldLine (savePolicyLine ptype oldRule) doc = true ↔
      SpecUpdateTarget ptype oldRule doc := by
  simp only [matchesOldLine, SpecUpdateTarget, Bool.and_eq_true,
    Bool.or_eq_true, beq_iff_eq]
  constructor
  · rintro ⟨⟨⟨⟨⟨⟨hpt, h0⟩, h1⟩, h2⟩, h3⟩, h4⟩, h5⟩
    refine ⟨hpt, fun k hk hne => ?_⟩
    interval_cases k <;>
      simp_all [ruleFields, savePolicyLine, List.getD_cons_zero,
        List.getD_cons_succ]
  · rintro ⟨hpt, hall⟩
    have h0 := hall 0 (by omega)
    have h1 := hall 1 (by omega)
    have h2 := hall 2 (by omega)
    have h3 := hall 3 (by omega)
    have h4 := hall 4 (by omega)
    have h5 := hall 5 (by omega)
    simp only [ruleFields, savePolicyLine, List.getD_cons_zero,
      List.getD_cons_succ] at h0 h1 h2 h3 h4 h5
    simp only [savePolicyLine]
    refine ⟨⟨⟨⟨⟨⟨hpt, ?_⟩, ?_⟩, ?_⟩, ?_⟩, ?_⟩, ?_⟩
    · by_cases hv : oldRule.getD 0 "" = ""
      · exact Or.inl hv
      · exact Or.inr (h0 hv)
    · by_cases hv : oldRule.getD 1 "" = ""
      · exact Or.inl hv
      · exact Or.inr (h1 hv)
    · by_cases hv : oldRule.getD 2 "" = ""
      · exact Or.inl hv
      · exact Or.inr (h2 hv)
    · by_cases hv : oldRule.getD 3 "" = ""
      · exact Or.inl hv
      · exact Or.inr (h3 hv)
    · by_cases hv : oldRule.getD 4 "" = ""
      · exact Or.inl hv
      · exact Or.inr (h4 hv)
    · by_cases hv : oldRule.getD 5 "" = ""
      · exact Or.inl hv
      · exact Or.inr (h5 hv)

/-- Claim C6: `UpdatePolicy` modifies exactly the documents whose ptype is
the given one and whose value fields agree with every non-empty field of
the old rule; every other document of the collection is unchanged. -/
theorem updatePolicy_frame (ptype : String) (oldRule newRule : List String)
    (coll : List CasbinRule) :
    updatePolicy ptype oldRule newRule coll =
      coll.map fun doc =>
        if SpecUpdateTarget ptype oldRule doc
        then applyUpdate (savePolicyLine ptype newRule) doc
        else doc := by
  unfold updatePolicy
  refine List.map_congr_left fun doc _ => ?_
  by_cases h : SpecUpdateTarget ptype oldRule doc
  · rw [if_pos ((matchesOldLine_iff ptype oldRule doc).mpr h), if_pos h]
  · rw [if_neg (fun hb => h ((matchesOldLine_iff ptype oldRule doc).mp hb)),
      if_neg h]

/-- Embeds `Adapter.UpdateFilteredPolicies`: adds each new policy through
`AddPolicy` (one `CreateDocument` per rule, appended to the collection)
and returns the empty list of old policies; the filter arguments are
accepted but never used, and nothing is removed. -/
def updateFilteredPolicies (ptype : String)
    (newPolicies : List (List String)) (fieldIndex : Int)
    (fieldValues : List String) (coll : List CasbinRule) :
    List CasbinRule × List (List String) :=
  (newPolicies.foldl (fun c np => c ++ [savePolicyLine ptype np]) coll, [])

theorem foldl_append_singleton (ptype : String) (ps : List (List String)) :
    ∀ coll : List CasbinRule,
      ps.foldl (fun c np => c ++ [savePolicyLine ptype np]) coll =
        coll ++ ps.map (savePolicyLine ptype) := by
  induction ps with
  | nil => intro coll; simp
  | cons p ps ih => intro coll; simp [List.foldl_cons, ih]

/-- Claim C9: `UpdateFilteredPolicies` appends the encodings of all new
policies to the collection (so every pre-existing document survives
unchanged, whether it matches the filter or not) and returns an empty
list of old policies. -/
theorem updateFilteredPolicies_spec (ptype : String)
    (newPolicies : List (List String)) (fieldIndex : Int)
    (fieldValues : List String) (coll : List CasbinRule) :
    updateFilteredPolicies ptype newPolicies fieldIndex fieldValues coll =
      (coll ++ newPolicies.map (savePolicyLine ptype), []) := by
  unfold updateFilteredPolicies
  rw [foldl_append_singleton]

/-- Embeds the `Filter` struct: per field, a list of acceptable values;
an empty list leaves the field unconstrained. -/
structure Filter where
  ptype : List String
  v0 : List String
  v1 : List String
  v2 : List String
  v3 : List String
  v4 : List String
  v5 : List String
deriving Repr, DecidableEq

/-- Set-membership predicate of the query built by
`LoadFilteredPolicyCtx`: one `doc.field IN @values` clause per field with
a non-empty candidate list. -/
def filterMatches (f : Filter) (doc : CasbinRule) : Bool :=
  (f.ptype.isEmpty || f.ptype.contains doc.ptype) &&
  (f.v0.isEmpty || f.v0.contains doc.v0) &&
  (f.v1.isEmpty || f.v1.contains doc.v1) &&
  (f.v2.isEmpty || f.v2.contains doc.v2) &&
  (f.v3.isEmpty || f.v3.contains doc.v3) &&
  (f.v4.isEmpty || f.v4.contains doc.v4) &&
  (f.v5.isEmpty || f.v5.contains doc.v5)

/-- Dynamic type of the `filter interface` argument of
`LoadFilteredPolicy`: the five shapes recognized by the type switch, and
`other` for every remaining dynamic type (including a nil interface). -/
inductive FilterArg where
  | single (f : Filter)
  | pointer (f : Filter)
  | several (fs : List Filter)
  | batch (fs : List Filter)
  | batchPointer (fs : List Filter)
  | other
deriving Repr, DecidableEq

/-- The type switch at the top of `LoadFilteredPolicyCtx`: the list of
filters each recognized dynamic type yields; `none` models the default
branch, which returns nil immediately. -/
def filtersOf : FilterArg → Option (List Filter)
  | .single f => some [f]
  | .pointer f => some [f]
  | .several fs => some fs
  | .batch fs => some fs
  | .batchPointer fs => some fs
  | .other => none

/-- The part of the adapter state that the filtered-load claims concern:
the `isFiltered` flag. -/
structure AdapterState where
  isFiltered : Bool
deriving Repr, DecidableEq

theorem foldl_loadStep_append (coll : List CasbinRule) :
    ∀ m : List (List String), coll.foldl loadStep m = m ++ loadAll coll := by
  induction coll with
  | nil => intro m; simp [loadAll]
  | cons r t ih =>
    intro m
    have hstep : ∀ m' : List (List String),
        loadStep m' r = m' ++ loadStep [] r := by
      intro m'
      cases h : loadPolicyLine r <;> simp [loadStep, h]
    rw [List.foldl_cons, ih (loadStep m r), hstep m]
    have : loadAll (r :: t) = loadStep [] r ++ loadAll t := by
      rw [loadAll, List.foldl_cons, ih (loadStep [] r)]
    rw [this, List.append_assoc]

/-- Embeds `LoadPolicyCtx`: one query returning every document of the
collection, each document decoded and appended to the model.  The adapter
state — in particular the `isFiltered` flag — is not touched by this
method.  The last component counts the queries executed. -/
def loadPolicyCtx (a : AdapterState) (coll : List CasbinRule)
    (mem : List (List String)) :
    AdapterState × List (List String) × Nat :=
  (a, coll.foldl loadStep mem, 1)

/-- Embeds `LoadFilteredPolicyCtx`: the type switch (default branch
returns nil at once), the empty-filter-list fallback to a full
`LoadPolicyCtx`, and otherwise one set-membership query per filter whose
matching documents are decoded into the model, after which
`isFiltered := true` is recorded. -/
def loadFilteredPolicyCtx (a : AdapterState) (coll : List CasbinRule)
    (mem : List (List String)) (filter : FilterArg) :
    AdapterState × List (List String) × Nat :=
  match filtersOf filter with
  | none => (a, mem, 0)
  | some [] => loadPolicyCtx a coll mem
  | some fs =>
    ({ a with isFiltered := true },
      fs.foldl (fun m f => (coll.filter (filterMatches f)).foldl loadStep m)
        mem,
      fs.length)

/-- Claim C10: a filter argument of an unrecognized dynamic type makes
`LoadFilteredPolicy` return success immediately — no query is executed,
nothing is loaded, the filtered flag is untouched — while a recognized
argument holding an empty list of filters falls through to a full
unfiltered `LoadPolicyCtx`, which loads every stored rule. -/
theorem loadFilteredPolicy_dispatch (a : AdapterState)
    (coll : List CasbinRule) (mem : List (List String)) :
    loadFilteredPolicyCtx a coll mem .other = (a, mem, 0) ∧
      loadFilteredPolicyCtx a coll mem (.several []) =
        loadPolicyCtx a coll mem ∧
      loadFilteredPolicyCtx a coll mem (.batch []) =
        loadPolicyCtx a coll mem ∧
      loadFilteredPolicyCtx a coll mem (.batchPointer []) =
        loadPolicyCtx a coll mem ∧
      loadPolicyCtx a coll mem = (a, mem ++ loadAll coll, 1) := by
  refine ⟨rfl, rfl, rfl, rfl, ?_⟩
  rw [loadPolicyCtx, foldl_loadStep_append]

def c2Rule (s o act : String) : CasbinRule :=
  { key := "", ptype := "p", v0 := s, v1 := o, v2 := act, v3 := "",
    v4 := "", v5 := "" }

def c2Coll : List CasbinRule :=
  [c2Rule "alice" "data1" "read", c2Rule "alice" "data2" "write",
    c2Rule "bob" "data1" "read", c2Rule "bob" "data2" "write"]

def c2Filter : Filter :=
  { ptype := [], v0 := ["alice"], v1 := [], v2 := [], v3 := [], v4 := [],
    v5 := [] }

/-- Claim C2 counterexample: after a successful filtered load the flag is
true, and a subsequent unfiltered `LoadPolicyCtx` does not reset it — the
method never assigns `isFiltered`, so the flag is not false afterwards as
the claim asserts. -/
theorem isFiltered_not_reset_cex :
    ¬(loadPolicyCtx
        (loadFilteredPolicyCtx ⟨false⟩ c2Coll [] (.single c2Filter)).1
        c2Coll []).1.isFiltered = false := by
  decide

/-- Claim C2 (amended): a successful `LoadFilteredPolicy` with a
non-empty filter list leaves `IsFiltered` true, and a subsequent
successful unfiltered `LoadPolicy` leaves the flag unchanged — still true
— because no code path ever resets it to false. -/
theorem isFiltered_after_loads (a : AdapterState)
    (coll coll2 : List CasbinRule) (mem mem2 : List (List String))
    (farg : FilterArg) (fs : List Filter) (hfs : filtersOf farg = some fs)
    (hne : fs ≠ []) :
    (loadFilteredPolicyCtx a coll mem farg).1.isFiltered = true ∧
      (loadPolicyCtx (loadFilteredPolicyCtx a coll mem farg).1 coll2
        mem2).1.isFiltered = true := by
  obtain ⟨f, fs', rfl⟩ : ∃ f fs', fs = f :: fs' := by
    cases fs with
    | nil => exact absurd rfl hne
    | cons f fs' => exact ⟨f, fs', rfl⟩
  rw [loadFilteredPolicyCtx, hfs]
  exact ⟨rfl, rfl⟩

theorem isFiltered_after_loads_witness :
    filtersOf (.single c2Filter) = some [c2Filter] ∧
      ([c2Filter] : List Filter) ≠ [] ∧
      ((loadFilteredPolicyCtx ⟨false⟩ c2Coll [] (.single c2Filter)).1.isFiltered
          = true ∧
        (loadPolicyCtx
          (loadFilteredPolicyCtx ⟨false⟩ c2Coll [] (.single c2Filter)).1
          c2Coll []).1.isFiltered = true) :=
  ⟨rfl, by simp,
    isFiltered_after_loads ⟨false⟩ c2Coll c2Coll [] [] (.single c2Filter)
      [c2Filter] rfl (by simp)⟩

/-- Embeds the two Bool flags of `ArangoTransactionContext`. -/
structure TxState where
  committed : Bool
  rolledBack : Bool
deriving Repr, DecidableEq

/-- Embeds `ArangoTransactionContext.Commit`: the returned error, the
updated context, and whether the underlying database commit was invoked.
`dbResult` is the outcome the underlying driver call returns when it is
invoked. -/
def txCommit (s : TxState) (dbResult : Except String Unit) :
    Except String Unit × TxState × Bool :=
  if s.committed || s.rolledBack then
    (.error "transaction already finished", s, false)
  else
    match dbResult with
    | .ok _ => (.ok (), { s with committed := true }, true)
    | .error e => (.error e, s, true)

/-- Embeds `ArangoTransactionContext.Rollback`, symmetric to `Commit`
with the `rolledBack` flag. -/
def txRollback (s : TxState) (dbResult : Except String Unit) :
    Except String Unit × TxState × Bool :=
  if s.committed || s.rolledBack then
    (.error "transaction already finished", s, false)
  else
    match dbResult with
    | .ok _ => (.ok (), { s with rolledBack := true }, true)
    | .error e => (.error e, s, true)

/-- Claim C7: on a finished context every `Commit`/`Rollback` call
returns the "transaction already finished" error without invoking the
underlying database call and without changing state; a successful
`Commit`/`Rollback` from the active state reaches the corresponding
terminal state; and a `Commit`/`Rollback` whose underlying database call
fails propagates that error and leaves the context active. -/
theorem txContext_spec (s : TxState) (r : Except String Unit)
    (e : String) :
    (s.committed = true ∨ s.rolledBack = true →
        txCommit s r = (.error "transaction already finished", s, false) ∧
          txRollback s r =
            (.error "transaction already finished", s, false)) ∧
      txCommit ⟨false, false⟩ (.ok ()) = (.ok (), ⟨true, false⟩, true) ∧
      txRollback ⟨false, false⟩ (.ok ()) = (.ok (), ⟨false, true⟩, true) ∧
      txCommit ⟨false, false⟩ (.error e) =
        (.error e, ⟨false, false⟩, true) ∧
      txRollback ⟨false, false⟩ (.error e) =
        (.error e, ⟨false, false⟩, true) := by
  refine ⟨fun h => ?_, rfl, rfl, rfl, rfl⟩
  have hb : (s.committed || s.rolledBack) = true := by
    rcases h with h | h <;> simp [h]
  constructor <;> simp [txCommit, txRollback, hb]

theorem txContext_spec_witness :
    ((⟨true, false⟩ : TxState).committed = true ∨
        (⟨true, false⟩ : TxState).rolledBack = true) ∧
      (txCommit ⟨true, false⟩ (.ok ()) =
          (.error "transaction already finished", ⟨true, false⟩, false) ∧
        txRollback ⟨true, false⟩ (.ok ()) =
          (.error "transaction already finished", ⟨true, false⟩, false)) :=
  ⟨Or.inl rfl,
    (txContext_spec ⟨true, false⟩ (.ok ()) "net").1 (Or.inl rfl)⟩

/-- Predicate of the removal query built by `RemoveFilteredPolicyCtx`:
ptype equality conjoined with the clause of every bound field position. -/
def matchesFilteredRemoval (ptype : String) (fieldIndex : Int)
    (fieldValues : List String) (doc : CasbinRule) : Bool :=
  doc.ptype == ptype &&
    (removeFilteredBindings fieldIndex fieldValues).all fun jv =>
      (ruleFields doc).getD jv.1 "" == jv.2.getD ""

/-- One adapter write operation, as can be issued from inside the
function passed to `Transaction`; each variant names the adapter method
it embeds. -/
inductive PolicyOp where
  | add (ptype : String) (rule : List String)
  | addMany (ptype : String) (rules : List (List String))
  | remove (ptype : String) (rule : List String)
  | removeFiltered (ptype : String) (fieldIndex : Int)
      (fieldValues : List String)
  | update (ptype : String) (oldRule newRule : List String)
deriving Repr, DecidableEq

/-- Effect of one adapter write on a collection, following the AQL
statement or document insert each method issues. -/
def applyOp : PolicyOp → List CasbinRule → List CasbinRule
  | .add pt r, coll => coll ++ [savePolicyLine pt r]
  | .addMany pt rs, coll => coll ++ rs.map (savePolicyLine pt)
  | .remove pt r, coll =>
    coll.filter fun d => !matchesOldLine (savePolicyLine pt r) d
  | .removeFiltered pt fi fv, coll =>
    coll.filter fun d => !matchesFilteredRemoval pt fi fv d
  | .update pt o n, coll => updatePolicy pt o n coll

/-- Database state: the committed collection, plus the write view of the
open streaming transaction when one is active. -/
structure ArangoDB where
  committed : List CasbinRule
  txLayer : Option (List CasbinRule)
deriving Repr, DecidableEq

/-- `BeginTransaction`: opens a streaming transaction whose write view
starts at the committed collection. -/
def beginTx (db : ArangoDB) : ArangoDB :=
  { db with txLayer := some db.committed }

/-- `Abort`: discards the open transaction's writes. -/
def abortTx (db : ArangoDB) : ArangoDB := { db with txLayer := none }

/-- `Commit`: the open transaction's view becomes the committed
collection. -/
def commitTx (db : ArangoDB) : ArangoDB :=
  { committed := db.txLayer.getD db.committed, txLayer := none }

/-- A write request as received by the database server: the operation
and whether the request carries the id of the open streaming
transaction.  The driver attaches a transaction id only when the caller
uses a transaction-scoped context or handles obtained from the
transaction object. -/
structure WriteRequest where
  op : PolicyOp
  inTransaction : Bool
deriving Repr, DecidableEq

/-- Server semantics of a write request: it is applied inside the open
transaction's view only when it carries the transaction id; otherwise it
is applied directly to the committed collection — even while a
transaction is open — and is therefore untouched by a later abort. -/
def execRequest (req : WriteRequest) (db : ArangoDB) : ArangoDB :=
  match db.txLayer, req.inTransaction with
  | some l, true => { db with txLayer := some (applyOp req.op l) }
  | _, _ => { db with committed := applyOp req.op db.committed }

/-- Embeds the adapter write methods as invoked through the
transaction-bound adapter that `Transaction` installs: every method
executes through `a.collection` / `a.db.Query` with a plain context, and
the stored `transaction` field of the adapter is never consulted by any
method, so none of the issued requests carries the transaction id. -/
def adapterExec (op : PolicyOp) (db : ArangoDB) : ArangoDB :=
  execRequest { op := op, inTransaction := false } db

/-- Embeds `Adapter.Transaction`: begin a streaming transaction, run the
caller-supplied function (its adapter writes `ops` execute through the
transaction-bound adapter, its final in-memory model is `memAfterFc`,
and it returns `fcErr`); on error, abort the transaction, reload the
model from the committed collection and return the function's error; on
success, commit. -/
def runTransaction (db : ArangoDB) (ops : List PolicyOp)
    (memAfterFc : List (List String)) (fcErr : Option String) :
    ArangoDB × List (List String) × Option String :=
  let db1 := beginTx db
  let db2 := ops.foldl (fun d op => adapterExec op d) db1
  match fcErr with
  | some e =>
    let db3 := abortTx db2
    (db3, loadAll db3.committed, some e)
  | none => (commitTx db2, memAfterFc, none)

theorem adapterExec_eq (op : PolicyOp) (db : ArangoDB) :
    adapterExec op db = { db with committed := applyOp op db.committed } := by
  cases h : db.txLayer <;> simp [adapterExec, execRequest, h]

theorem foldl_adapterExec_committed (ops : List PolicyOp) :
    ∀ db : ArangoDB,
      (ops.foldl (fun d op => adapterExec op d) db).committed =
        ops.foldl (fun c op => applyOp op c) db.committed := by
  induction ops with
  | nil => intro db; rfl
  | cons op t ih => intro db; rw [List.foldl_cons, List.foldl_cons, ih,
      adapterExec_eq]

/-- The writes performed inside `Transaction` land directly in the
committed collection, so the abort performed on the error path leaves
them all in place: the persisted collection after a "rolled back"
transaction is the original collection with every operation applied. -/
theorem runTransaction_error_state (db : ArangoDB) (ops : List PolicyOp)
    (memAfterFc : List (List String)) (e : String) :
    (runTransaction db ops memAfterFc (some e)).1.committed =
      ops.foldl (fun c op => applyOp op c) db.committed := by
  rw [runTransaction]
  simp only [abortTx]
  rw [foldl_adapterExec_committed]
  rfl

/-- Claim C1 (code-bug evaluation at the failing input): with an empty
committed collection and a function that adds one rule through the
transaction-bound adapter and then fails, `Transaction` aborts — yet the
added document survives in the committed collection, because no write
request ever carried the transaction id; the model is then reloaded to
contain the new rule and the function's error is returned.  The
persisted collection is not what it was before the call, contradicting
the claim and the code's own comments. -/
theorem transaction_rollback_bug :
    runTransaction ⟨[], none⟩ [.add "p" ["alice", "data1", "read"]] []
        (some "boom") =
      (⟨[savePolicyLine "p" ["alice", "data1", "read"]], none⟩,
        [["p", "alice", "data1", "read"]], some "boom") ∧
      [savePolicyLine "p" ["alice", "data1", "read"]] ≠
        ([] : List CasbinRule) := by
  exact ⟨by decide, by simp⟩

end ArangoAdapter
